import Mathlib

/-!
Verification of the episode-driving state machine and the LLM-backed
action-selection policy of the jericho agent runner.

The definitions below are a shallow embedding of `src/agent/agent.py`
(`Agent.run`, `WalkThroughAgent.run`, the three `update_*` operations) and
`src/agent/llm.py` (`LLMAgent.choose_action`, chat-history trimming, the
whole-word regex match, and the fallback logic).  Python dictionaries are
modelled as insertion-ordered association lists, the environment as an
abstract deterministic state machine, the remote completion service as an
oracle from the request messages to either a failure or a response body,
and `random.choice` as indexing by a supplied natural number modulo the
list length.  The driver loop runs on explicit fuel; `RunOutcome.outOfFuel`
marks a loop that has not yet terminated, so quantifying over all fuels
also exposes every intermediate state of an episode.
-/

/-- Python `dict` membership test (`key in d`), for `Nat` keys. -/
def dictContains (k : Nat) {α : Type} (d : List (Nat × α)) : Bool :=
  d.any (fun p => p.1 == k)

/-- Python `d[k] = v`: replace in place if the key exists, else append,
preserving insertion order exactly as CPython dicts do. -/
def dictInsert (k : Nat) {α : Type} (v : α) (d : List (Nat × α)) : List (Nat × α) :=
  if dictContains k d then d.map (fun p => if p.1 == k then (k, v) else p)
  else d ++ [(k, v)]

/-- The keys of a dict, in insertion order (Python `list(d.keys())`). -/
def dictKeys {α : Type} (d : List (Nat × α)) : List Nat :=
  d.map Prod.fst

/-- The per-episode record kept on the agent object: `self.step`,
`self.observations`, `self.actions`, `self.rewards` (agent.py lines 37-40). -/
structure AgentState where
  step : Nat
  observations : List (Nat × String)
  actions : List (Nat × String)
  rewards : List (Nat × Int)
deriving DecidableEq

/-- The environment adapter (jericho `FrotzEnv`) as a deterministic state
machine: `reset` yields the initial observation and an info record (the info
is discarded by `Agent.reset_env`), `stepFn` maps a state and an action to
`(state', observation, reward, done, info)`, mirroring
`env.step(action) -> (observation, reward, done, info)`. -/
structure EnvModel (σ : Type) where
  init : σ
  resetObs : String
  resetInfo : String
  validActions : σ → List String
  stepFn : σ → String → σ × String × Int × Bool × String
  walkthrough : List String

/-- A terminal error propagated out of `choose_action` when
`fallback_to_random` is disabled (`ValueError` / `RequestException`). -/
inductive PolicyErr
  | fallbackExhausted
deriving DecidableEq

/-- The ways `run()` can terminate abnormally: the `UnboundLocalError` at
`self.info = info` when the loop body never executed, or an exception
propagated from the policy. -/
inductive RunError
  | unboundLocalInfo
  | policyError (e : PolicyErr)
deriving DecidableEq

/-- Result of `run()`.  `closed` records whether `self.close_env()` was
reached on that exit path.  `outOfFuel` is a still-running loop. -/
inductive RunOutcome
  | ok (st : AgentState) (info : String) (closed : Bool)
  | err (e : RunError) (st : AgentState) (closed : Bool)
  | outOfFuel (st : AgentState)
deriving DecidableEq

/-- Model of `Agent.reset_env`: zero the step counter, empty the three dicts, reset
the environment and store the first observation at key 0 (agent.py 33-43). -/
def initState {σ : Type} (env : EnvModel σ) : AgentState :=
  { step := 0
    observations := dictInsert 0 env.resetObs []
    actions := []
    rewards := [] }

/-- One iteration's bookkeeping in `run()` (agent.py 103-110):
`update_action` writes at the current step, then the step counter is
incremented, then `update_reward` and `update_observation` write at the
new (incremented) step value. -/
def stepUpdate (st : AgentState) (a obs : String) (rew : Int) : AgentState :=
  let st1 := { st with actions := dictInsert st.step a st.actions }
  let st2 := { st1 with step := st1.step + 1 }
  let st3 := { st2 with rewards := dictInsert st2.step rew st2.rewards }
  { st3 with observations := dictInsert st3.step obs st3.observations }

/-- The epilogue `self.info = info; self.close_env()` (agent.py 112-113).
If the loop body never ran, the local `info` is unbound and the assignment
raises before `close_env()` is reached. -/
def finishRun (st : AgentState) (li : Option String) : RunOutcome :=
  match li with
  | none => RunOutcome.err RunError.unboundLocalInfo st false
  | some i => RunOutcome.ok st i true

/-- The Python loop guard fragment
`not self.max_steps or self.step < self.max_steps`: `None` and `0` are both
falsy, so a configured maximum of 0 behaves like no maximum at all. -/
def budgetOpen : Option Nat → Nat → Bool
  | none, _ => true
  | some m, step => if m = 0 then true else decide (step < m)

/-- The body of `Agent.run` (agent.py 96-113), on explicit fuel.  `choose`
is the polymorphic `choose_action`, allowed to consult the step number and
to raise.  `li` carries the loop-local `info` variable (`none` = unbound). -/
def runLoop {σ : Type} (env : EnvModel σ)
    (choose : Nat → List String → Except PolicyErr String)
    (ms : Option Nat) :
    Nat → σ → AgentState → Bool → Option String → RunOutcome
  | 0, _, st, _, _ => RunOutcome.outOfFuel st
  | Nat.succ fuel, es, st, done, li =>
    if !done && budgetOpen ms st.step then
      if (env.validActions es).length = 0 then finishRun st li
      else
        match choose st.step (env.validActions es) with
        | Except.error e => RunOutcome.err (RunError.policyError e) st false
        | Except.ok a =>
          -- env.stepFn es a = (state', observation, reward, done, info)
          runLoop env choose ms fuel (env.stepFn es a).1
            (stepUpdate st a (env.stepFn es a).2.1 (env.stepFn es a).2.2.1)
            (env.stepFn es a).2.2.2.1 (some (env.stepFn es a).2.2.2.2)
    else finishRun st li

/-- Model of `Agent.run()` from a freshly reset agent. -/
def runAgent {σ : Type} (env : EnvModel σ)
    (choose : Nat → List String → Except PolicyErr String)
    (ms : Option Nat) (fuel : Nat) : RunOutcome :=
  runLoop env choose ms fuel env.init (initState env) false none

/-- The body of `WalkThroughAgent.run` (agent.py 137-149): iterate the
precomputed walkthrough, ignoring `done`, the legal-action set and
`max_steps`, with the same per-step bookkeeping and the same epilogue. -/
def walkLoop {σ : Type} (env : EnvModel σ) :
    List String → σ → AgentState → Option String → RunOutcome
  | [], _, st, li => finishRun st li
  | a :: rest, es, st, _ =>
    -- env.stepFn es a = (state', observation, reward, done, info); done ignored
    walkLoop env rest (env.stepFn es a).1
      (stepUpdate st a (env.stepFn es a).2.1 (env.stepFn es a).2.2.1)
      (some (env.stepFn es a).2.2.2.2)

/-- Model of `WalkThroughAgent.run()`; the stored `max_steps` is never consulted. -/
def walkRun {σ : Type} (env : EnvModel σ) (_ms : Option Nat) : RunOutcome :=
  walkLoop env env.walkthrough env.init (initState env) none

/-- The agent state carried by any outcome. -/
def stateOf : RunOutcome → AgentState
  | RunOutcome.ok st _ _ => st
  | RunOutcome.err _ st _ => st
  | RunOutcome.outOfFuel st => st

/-- The step counter carried by any outcome. -/
def stepOf (o : RunOutcome) : Nat := (stateOf o).step

/-- Did `run()` return normally? -/
def isOk : RunOutcome → Bool
  | RunOutcome.ok _ _ _ => true
  | _ => false

/-- Did `run()` raise? -/
def isErr : RunOutcome → Bool
  | RunOutcome.err _ _ _ => true
  | _ => false

/-- Was `env.close()` invoked on this exit path? -/
def closedOf : RunOutcome → Bool
  | RunOutcome.ok _ _ c => c
  | RunOutcome.err _ _ c => c
  | RunOutcome.outOfFuel _ => false

/-- A chat turn `(role, content)`. -/
abbrev Msg := String × String

/-- The `LLMAgent.system_message` turn (llm.py 54-73). -/
def systemMessage : Msg :=
  ("system",
   "You are an AI agent playing a text-based adventure game. Your goal " ++
   "is to maximize your score by solving puzzles, exploring the " ++
   "environment, and collecting important items.\nGuidelines:\n" ++
   "1. Carefully read and remember descriptions, noting items, locations, " ++
   "and potential clues.\n" ++
   "2. Maintain awareness of your inventory and use inventory items " ++
   "creatively to overcome challenges.\n" ++
   "3. Prioritize actions that explore new areas or interact meaningfully " ++
   "with your surroundings.\n" ++
   "4. Pay attention to hints in textual descriptions that may imply " ++
   "hidden puzzles or useful interactions.\n" ++
   "5. Avoid repeating actions unless you have new reasons to try " ++
   "them.\n" ++
   "IMPORTANT: Respond ONLY with the exact action from the provided valid " ++
   "actions list.")

/-- The chat history built by `LLMAgent.__init__` (llm.py 74-80): the system
turn followed by the initial observation as a user turn. -/
def initHistory (obs0 : String) : List Msg :=
  [systemMessage, ("user", "Step: 0: Observation: " ++ obs0)]

/-- The history append of `LLMAgent.update_action` (llm.py 172-174). -/
def updActionMsg (step : Nat) (a : String) (h : List Msg) : List Msg :=
  h ++ [("assistant", "Step " ++ toString step ++ ": Action: " ++ a)]

/-- The history append of `LLMAgent.update_reward` (llm.py 188-190). -/
def updRewardMsg (step : Nat) (r : Int) (h : List Msg) : List Msg :=
  h ++ [("user", "Step " ++ toString step ++ ": Reward: " ++ toString r)]

/-- The history append of `LLMAgent.update_observation` (llm.py 203-205). -/
def updObservationMsg (step : Nat) (obs : String) (h : List Msg) : List Msg :=
  h ++ [("user", "Step " ++ toString step ++ ": Observation: " ++ obs)]

/-- Python `l[-n:]`.  For `n > 0` this is the last `min n (length l)`
elements; for `n = 0`, because `-0 == 0`, the slice is `l[0:]`, the whole
list — the crucial edge case for a zero history window. -/
def pyLastSlice {α : Type} (n : Nat) (l : List α) : List α :=
  if n = 0 then l else l.drop (l.length - n)

/-- The history trim at the top of `LLMAgent.choose_action` (llm.py 106-109):
when the history exceeds `max_chat_history_size * 3` turns it is replaced by
the system turn followed by `chat_history[1:][-max_chat_history_size*3:]`. -/
def trimHistory (w : Nat) (h : List Msg) : List Msg :=
  if h.length > w * 3 then systemMessage :: pyLastSlice (w * 3) h.tail else h

/-- Python's `str` of a list of strings, as used by the f-string
`f"Valid actions: {valid_actions}"`. -/
def renderActions (l : List String) : String :=
  "[" ++ String.intercalate ", " (l.map (fun a => "\x27" ++ a ++ "\x27")) ++ "]"

/-- The ephemeral user turn appended to the request messages but never to
the stored history (llm.py 111-120). -/
def ephemeralUserMsg (obs : String) (valid : List String) : Msg :=
  ("user",
   "Current observation: " ++ obs ++ "\n" ++
   "Valid actions: " ++ renderActions valid ++ "\n" ++
   "Which action do you want to take? Respond with the action only.")

/-- A regex word character (`\w`): alphanumeric or underscore. -/
def isWordChar (c : Char) : Bool := c.isAlphanum || c = '_'

/-- Wordness of an optional character; outside the string counts non-word. -/
def optIsWord : Option Char → Bool
  | some c => isWordChar c
  | none => false

/-- Holds when `act` is a case-insensitive prefix of `t` (the `re.IGNORECASE` match of
the `re.escape`d literal). -/
def prefixMatchCI : List Char → List Char → Bool
  | [], _ => true
  | _ :: _, [] => false
  | p :: ps, t :: ts => (p.toLower == t.toLower) && prefixMatchCI ps ts

/-- The regex `\b` assertion at position `j` of `resp`: the characters on
the two sides of the position differ in wordness. -/
def boundaryAt (resp : List Char) (j : Nat) : Bool :=
  optIsWord (if j = 0 then none else resp[j - 1]?) != optIsWord resp[j]?

/-- The regex of llm.py line 139 (backslash-b, the escaped action literal,
backslash-b, with `re.IGNORECASE`) matching
at position `i`. -/
def wholeWordAt (resp act : List Char) (i : Nat) : Bool :=
  prefixMatchCI act (resp.drop i) && boundaryAt resp i &&
    boundaryAt resp (i + act.length)

/-- The whole-word case-insensitive search of llm.py line 139: does the
action occur anywhere in the response on word boundaries? -/
def wholeWordSearch (act resp : String) : Bool :=
  (List.range (resp.data.length + 1)).any (fun i => wholeWordAt resp.data act.data i)

/-- The matching loop of llm.py 138-140: first action, in the supplied
order, that occurs whole-word case-insensitively in the response body. -/
def findMatchingAction (valid : List String) (raw : String) : Option String :=
  valid.find? (fun a => wholeWordSearch a raw)

/-- One normalized request failure: transport error / non-2xx status
(`requests.exceptions.RequestException`) or a missing response field
(`KeyError`). -/
inductive ReqFail
  | requestException
  | keyError
deriving DecidableEq

/-- The error raised out of `choose_action` when fallback is disabled. -/
inductive ChooseErr
  | noActionMatch (raw : String)
  | requestFailed (e : ReqFail)
deriving DecidableEq

/-- Model of `random.choice(valid_actions)` with the draw supplied as a natural
number, reduced modulo the list length. -/
def randomChoice (l : List String) (rand : Nat) : String :=
  l.getD (rand % l.length) ""

/-- Lines 134-159 of llm.py given the HTTP outcome: on a response body,
return the first whole-word match; otherwise fall back to a random legal
action when enabled, or raise.  A request failure takes the same fallback
path via the `except` clause. -/
def llmSelect (fb : Bool) (valid : List String) (resp : Except ReqFail String)
    (rand : Nat) : Except ChooseErr String :=
  match resp with
  | Except.ok raw =>
    match findMatchingAction valid raw with
    | some a => Except.ok a
    | none =>
      if fb then Except.ok (randomChoice valid rand)
      else Except.error (ChooseErr.noActionMatch raw)
  | Except.error e =>
    if fb then Except.ok (randomChoice valid rand)
    else Except.error (ChooseErr.requestFailed e)

/-- Model of `LLMAgent.choose_action` (llm.py 82-159): trim the stored history
(mutating it), build the request messages from the trimmed history plus the
ephemeral user turn, consult the completion service (`respond`), and select
an action.  Returns the post-call stored history and the selection result. -/
def llmChooseAction (w : Nat) (fb : Bool)
    (respond : List Msg → Except ReqFail String) (rand : Nat)
    (h : List Msg) (obs : String) (valid : List String) :
    List Msg × Except ChooseErr String :=
  let trimmed := trimHistory w h
  let messages := trimmed ++ [ephemeralUserMsg obs valid]
  (trimmed, llmSelect fb valid (respond messages) rand)

/-- Chat histories reachable from agent construction by the episode's
bookkeeping appends and by the trim that `choose_action` applies in place. -/
inductive HistReach (w : Nat) : List Msg → Prop
  | init (obs0 : String) : HistReach w (initHistory obs0)
  | act (s : Nat) (a : String) (h : List Msg) :
      HistReach w h → HistReach w (updActionMsg s a h)
  | rew (s : Nat) (r : Int) (h : List Msg) :
      HistReach w h → HistReach w (updRewardMsg s r h)
  | obs (s : Nat) (o : String) (h : List Msg) :
      HistReach w h → HistReach w (updObservationMsg s o h)
  | trim (h : List Msg) : HistReach w h → HistReach w (trimHistory w h)

theorem dictContains_eq_false {α : Type} (k : Nat) (d : List (Nat × α))
    (h : k ∉ dictKeys d) : dictContains k d = false := by
  simp only [dictContains, List.any_eq_false]
  intro p hp
  simp only [beq_iff_eq]
  intro hk
  exact h (by rw [dictKeys]; exact List.mem_map.mpr ⟨p, hp, hk⟩)

theorem dictInsert_fresh {α : Type} (k : Nat) (v : α) (d : List (Nat × α))
    (h : k ∉ dictKeys d) : dictInsert k v d = d ++ [(k, v)] := by
  simp [dictInsert, dictContains_eq_false k d h]

theorem dictKeys_insert_fresh {α : Type} (k : Nat) (v : α) (d : List (Nat × α))
    (h : k ∉ dictKeys d) : dictKeys (dictInsert k v d) = dictKeys d ++ [k] := by
  rw [dictInsert_fresh k v d h]
  simp [dictKeys]

/-- The step-indexing invariant of the three episode logs: actions are keyed
by `0..step-1`, rewards by `1..step` (the counter is incremented before the
reward and observation writes), observations by `0..step`. -/
def goodKeys (st : AgentState) : Prop :=
  dictKeys st.actions = List.range st.step ∧
  dictKeys st.rewards = List.range' 1 st.step ∧
  dictKeys st.observations = List.range (st.step + 1)

theorem goodKeys_init {σ : Type} (env : EnvModel σ) : goodKeys (initState env) := by
  refine ⟨rfl, rfl, ?_⟩
  simp [initState, dictInsert, dictContains, dictKeys, List.range_succ]

theorem goodKeys_stepUpdate (st : AgentState) (a obs : String) (rew : Int)
    (h : goodKeys st) : goodKeys (stepUpdate st a obs rew) := by
  obtain ⟨hA, hR, hO⟩ := h
  refine ⟨?_, ?_, ?_⟩
  · show dictKeys (dictInsert st.step a st.actions) = List.range (st.step + 1)
    rw [dictKeys_insert_fresh st.step a st.actions (by simp [hA]), hA,
      List.range_succ]
  · show dictKeys (dictInsert (st.step + 1) rew st.rewards) = List.range' 1 (st.step + 1)
    rw [dictKeys_insert_fresh (st.step + 1) rew st.rewards
      (by simp [hR, List.mem_range']; omega), hR, List.range'_concat]
    simp [Nat.add_comm]
  · show dictKeys (dictInsert (st.step + 1) obs st.observations)
        = List.range (st.step + 1 + 1)
    rw [dictKeys_insert_fresh (st.step + 1) obs st.observations (by simp [hO]), hO]
    simp [List.range_succ]

theorem stateOf_finishRun (st : AgentState) (li : Option String) :
    stateOf (finishRun st li) = st := by
  cases li <;> rfl

@[simp] theorem stepUpdate_step (st : AgentState) (a obs : String) (rew : Int) :
    (stepUpdate st a obs rew).step = st.step + 1 := rfl

theorem budgetOpen_zero (ms : Option Nat) : budgetOpen ms 0 = true := by
  cases ms with
  | none => rfl
  | some m =>
    by_cases hm : m = 0 <;> simp [budgetOpen, hm, Nat.pos_of_ne_zero]

theorem budgetOpen_some_true {m s : Nat} (hm : 1 ≤ m)
    (h : budgetOpen (some m) s = true) : s < m := by
  have hm0 : m ≠ 0 := by omega
  simpa [budgetOpen, hm0] using h

theorem runLoop_goodKeys {σ : Type} (env : EnvModel σ)
    (choose : Nat → List String → Except PolicyErr String) (ms : Option Nat) :
    ∀ (fuel : Nat) (es : σ) (st : AgentState) (done : Bool) (li : Option String),
      goodKeys st → goodKeys (stateOf (runLoop env choose ms fuel es st done li)) := by
  intro fuel
  induction fuel with
  | zero => intro es st done li h; exact h
  | succ fuel ih =>
    intro es st done li h
    rw [runLoop]
    split
    · split
      · rw [stateOf_finishRun]; exact h
      · split
        · exact h
        · exact ih _ _ _ _ (goodKeys_stepUpdate _ _ _ _ h)
    · rw [stateOf_finishRun]; exact h

theorem runLoop_closedSpec {σ : Type} (env : EnvModel σ)
    (choose : Nat → List String → Except PolicyErr String) (ms : Option Nat) :
    ∀ (fuel : Nat) (es : σ) (st : AgentState) (done : Bool) (li : Option String),
      (isOk (runLoop env choose ms fuel es st done li) = true →
        closedOf (runLoop env choose ms fuel es st done li) = true) ∧
      (isErr (runLoop env choose ms fuel es st done li) = true →
        closedOf (runLoop env choose ms fuel es st done li) = false) := by
  intro fuel
  induction fuel with
  | zero =>
    intro es st done li
    rw [runLoop]
    exact ⟨fun h => by simp [isOk] at h, fun _ => rfl⟩
  | succ fuel ih =>
    intro es st done li
    rw [runLoop]
    split
    · split
      · cases li with
        | none => exact ⟨fun h => by simp [finishRun, isOk] at h, fun _ => rfl⟩
        | some i => exact ⟨fun _ => rfl, fun h => by simp [finishRun, isErr] at h⟩
      · split
        · exact ⟨fun h => by simp [isOk] at h, fun _ => rfl⟩
        · exact ih _ _ _ _
    · cases li with
      | none => exact ⟨fun h => by simp [finishRun, isOk] at h, fun _ => rfl⟩
      | some i => exact ⟨fun _ => rfl, fun h => by simp [finishRun, isErr] at h⟩

theorem runLoop_step_le {σ : Type} (env : EnvModel σ)
    (choose : Nat → List String → Except PolicyErr String) (m : Nat) (hm : 1 ≤ m) :
    ∀ (fuel : Nat) (es : σ) (st : AgentState) (done : Bool) (li : Option String),
      st.step ≤ m →
      stepOf (runLoop env choose (some m) fuel es st done li) ≤ m := by
  intro fuel
  induction fuel with
  | zero => intro es st done li h; exact h
  | succ fuel ih =>
    intro es st done li h
    rw [runLoop]
    split
    · rename_i hguard
      have hlt : st.step < m :=
        budgetOpen_some_true hm (Bool.and_elim_right hguard)
      split
      · simpa [stepOf, stateOf_finishRun] using h
      · split
        · exact h
        · exact ih _ _ _ _ (by simp; omega)
    · simpa [stepOf, stateOf_finishRun] using h

theorem walkLoop_step {σ : Type} (env : EnvModel σ) :
    ∀ (l : List String) (es : σ) (st : AgentState) (li : Option String),
      stepOf (walkLoop env l es st li) = st.step + l.length := by
  intro l
  induction l with
  | nil => intro es st li; simp [walkLoop, stepOf, stateOf_finishRun]
  | cons a rest ih =>
    intro es st li
    rw [walkLoop, ih]
    simp
    omega

theorem walkLoop_goodKeys {σ : Type} (env : EnvModel σ) :
    ∀ (l : List String) (es : σ) (st : AgentState) (li : Option String),
      goodKeys st → goodKeys (stateOf (walkLoop env l es st li)) := by
  intro l
  induction l with
  | nil => intro es st li h; rw [walkLoop, stateOf_finishRun]; exact h
  | cons a rest ih =>
    intro es st li h
    rw [walkLoop]
    exact ih _ _ _ (goodKeys_stepUpdate _ _ _ _ h)

theorem pyLastSlice_sublist {α : Type} (n : Nat) (l : List α) :
    (pyLastSlice n l).Sublist l := by
  unfold pyLastSlice
  split
  · exact List.Sublist.refl l
  · exact List.drop_sublist _ l

theorem pyLastSlice_length_le {α : Type} {n : Nat} (hn : n ≠ 0) (l : List α) :
    (pyLastSlice n l).length ≤ n := by
  unfold pyLastSlice
  rw [if_neg hn, List.length_drop]
  omega

theorem trimHistory_head (w : Nat) (h : List Msg)
    (hh : h.head? = some systemMessage) :
    (trimHistory w h).head? = some systemMessage := by
  unfold trimHistory
  split
  · rfl
  · exact hh

theorem trimHistory_length (w : Nat) (hw : 1 ≤ w) (h : List Msg) :
    (trimHistory w h).length ≤ 3 * w + 1 := by
  unfold trimHistory
  split
  · rename_i hgt
    have := pyLastSlice_length_le (n := w * 3) (by omega) h.tail
    simp only [List.length_cons]
    omega
  · rename_i hle
    omega

theorem trimHistory_of_le (w : Nat) (h : List Msg) (hle : h.length ≤ w * 3) :
    trimHistory w h = h := by
  unfold trimHistory
  rw [if_neg (by omega)]

theorem histReach_head {w : Nat} {h : List Msg} (hr : HistReach w h) :
    h.head? = some systemMessage := by
  induction hr with
  | init obs0 => rfl
  | act s a h _ ih =>
    unfold updActionMsg
    cases h with
    | nil => simp at ih
    | cons x t => simpa using ih
  | rew s r h _ ih =>
    unfold updRewardMsg
    cases h with
    | nil => simp at ih
    | cons x t => simpa using ih
  | obs s o h _ ih =>
    unfold updObservationMsg
    cases h with
    | nil => simp at ih
    | cons x t => simpa using ih
  | trim h _ ih => exact trimHistory_head _ _ ih

theorem find?_first {α : Type} (p : α → Bool) (pre post : List α) (a : α)
    (ha : p a = true) (hpre : ∀ b ∈ pre, p b = false) :
    (pre ++ a :: post).find? p = some a := by
  induction pre with
  | nil => simp [List.find?_cons_of_pos _ ha]
  | cons x xs ih =>
    have hx : p x = false := hpre x (by simp)
    have hstep : List.find? p (x :: (xs ++ a :: post)) = List.find? p (xs ++ a :: post) :=
      List.find?_cons_of_neg _ (by simp [hx])
    rw [List.cons_append, hstep]
    exact ih fun b hb => hpre b (List.mem_cons_of_mem _ hb)

theorem getD_mem : ∀ (l : List String) (i : Nat), i < l.length → l.getD i "" ∈ l
  | x :: xs, 0, _ => by simp
  | x :: xs, i + 1, h => by
    simp only [List.getD_cons_succ]
    exact List.mem_cons_of_mem _ (getD_mem xs i (by simpa using Nat.lt_of_succ_lt_succ h))
  | [], i, h => by simp at h

theorem randomChoice_mem (l : List String) (rand : Nat) (hne : l ≠ []) :
    randomChoice l rand ∈ l :=
  getD_mem l (rand % l.length) (Nat.mod_lt _ (List.length_pos.mpr hne))

theorem findMatchingAction_mem {valid : List String} {raw a : String}
    (h : findMatchingAction valid raw = some a) : a ∈ valid :=
  List.mem_of_find?_eq_some h

/-- A one-legal-action environment whose first `step` call ends the game. -/
def doneEnv : EnvModel Unit :=
  { init := ()
    resetObs := "o0"
    resetInfo := "i0"
    validActions := fun _ => ["look"]
    stepFn := fun _ _ => ((), "o1", 0, true, "i1")
    walkthrough := ["look", "look"] }

/-- The deterministic policy that picks the first legal action. -/
def firstChoose : Nat → List String → Except PolicyErr String :=
  fun _ va => Except.ok (va.getD 0 "")

/-- The policy that always raises (the LLM failed, fallback disabled). -/
def errChoose : Nat → List String → Except PolicyErr String :=
  fun _ _ => Except.error PolicyErr.fallbackExhausted

/-- An environment whose legal-action set is already empty at reset. -/
def emptyEnv : EnvModel Unit :=
  { init := ()
    resetObs := "o0"
    resetInfo := "i0"
    validActions := fun _ => []
    stepFn := fun _ _ => ((), "o1", 0, false, "i1")
    walkthrough := [] }

/-- An environment whose legal-action set empties after the first step. -/
def emptiesEnv : EnvModel Bool :=
  { init := false
    resetObs := "o0"
    resetInfo := "i0"
    validActions := fun s => if s then [] else ["look"]
    stepFn := fun _ _ => (true, "o1", 0, false, "i1")
    walkthrough := [] }

/-- C1: for every completed episode (`Agent.run` or `WalkThroughAgent.run`
returning normally), the number of recorded rewards equals the number of
recorded actions equals the final step counter, and the number of recorded
observations equals the final step counter plus one. -/
theorem agent_run_counts {σ : Type} (env : EnvModel σ)
    (choose : Nat → List String → Except PolicyErr String)
    (ms : Option Nat) (fuel : Nat) :
    (isOk (runAgent env choose ms fuel) = true →
      (stateOf (runAgent env choose ms fuel)).rewards.length
          = stepOf (runAgent env choose ms fuel) ∧
      (stateOf (runAgent env choose ms fuel)).actions.length
          = stepOf (runAgent env choose ms fuel) ∧
      (stateOf (runAgent env choose ms fuel)).observations.length
          = stepOf (runAgent env choose ms fuel) + 1) ∧
    (isOk (walkRun env ms) = true →
      (stateOf (walkRun env ms)).rewards.length = stepOf (walkRun env ms) ∧
      (stateOf (walkRun env ms)).actions.length = stepOf (walkRun env ms) ∧
      (stateOf (walkRun env ms)).observations.length = stepOf (walkRun env ms) + 1) := by
  have lenOf : ∀ st : AgentState, goodKeys st →
      st.rewards.length = st.step ∧ st.actions.length = st.step ∧
        st.observations.length = st.step + 1 := by
    intro st ⟨hA, hR, hO⟩
    refine ⟨?_, ?_, ?_⟩
    · have := congrArg List.length hR
      simpa [dictKeys] using this
    · have := congrArg List.length hA
      simpa [dictKeys] using this
    · have := congrArg List.length hO
      simpa [dictKeys] using this
  constructor
  · intro _
    exact lenOf _ (runLoop_goodKeys env choose ms fuel env.init (initState env)
      false none (goodKeys_init env))
  · intro _
    exact lenOf _ (walkLoop_goodKeys env env.walkthrough env.init (initState env)
      none (goodKeys_init env))

theorem agent_run_counts_witness :
    ((stateOf (runAgent doneEnv firstChoose none 5)).rewards.length
        = stepOf (runAgent doneEnv firstChoose none 5) ∧
      (stateOf (runAgent doneEnv firstChoose none 5)).actions.length
        = stepOf (runAgent doneEnv firstChoose none 5) ∧
      (stateOf (runAgent doneEnv firstChoose none 5)).observations.length
        = stepOf (runAgent doneEnv firstChoose none 5) + 1) ∧
    ((stateOf (walkRun doneEnv none)).rewards.length = stepOf (walkRun doneEnv none) ∧
      (stateOf (walkRun doneEnv none)).actions.length = stepOf (walkRun doneEnv none) ∧
      (stateOf (walkRun doneEnv none)).observations.length
        = stepOf (walkRun doneEnv none) + 1) :=
  ⟨(agent_run_counts doneEnv firstChoose none 5).1 (by decide),
   (agent_run_counts doneEnv firstChoose none 5).2 (by decide)⟩

/-- C7 (amended): at every point during an episode (every state the driver
loop can stop in, for any fuel), the actions mapping is populated exactly
for step indices `0..step-1`, and the rewards mapping is populated exactly
for step indices `1..step` — not `0..step-1` as claimed, because the step
counter is incremented before `update_reward` runs. -/
theorem log_keys_amended {σ : Type} (env : EnvModel σ)
    (choose : Nat → List String → Except PolicyErr String)
    (ms : Option Nat) (fuel : Nat) :
    dictKeys (stateOf (runAgent env choose ms fuel)).actions
        = List.range (stepOf (runAgent env choose ms fuel)) ∧
    dictKeys (stateOf (runAgent env choose ms fuel)).rewards
        = List.range' 1 (stepOf (runAgent env choose ms fuel)) := by
  have h := runLoop_goodKeys env choose ms fuel env.init (initState env)
    false none (goodKeys_init env)
  exact ⟨h.1, h.2.1⟩

/-- C7 counterexample: after one completed step the step counter is 1, yet
the rewards mapping has no entry at index 0 (`step-1`); the reward of the
first step is stored under index 1. -/
theorem rewards_key_zero_cex :
    stepOf (runAgent doneEnv firstChoose none 5) = 1 ∧
    dictContains 0 (stateOf (runAgent doneEnv firstChoose none 5)).rewards = false ∧
    dictContains 1 (stateOf (runAgent doneEnv firstChoose none 5)).rewards = true := by
  decide

/-- C5 (amended): with a positive step maximum `M`, every run of the driver
loop — any policy, hence both the random and the model-driven variants —
has `steps_taken <= M`, and the fixed-script variant's `steps_taken` equals
the walkthrough length whatever `max_steps` is.  A maximum of 0 is excluded:
`not self.max_steps` treats it as falsy, i.e. as if no maximum were set. -/
theorem step_budget_amended {σ : Type} (env : EnvModel σ)
    (choose : Nat → List String → Except PolicyErr String)
    (m fuel : Nat) (hm : 1 ≤ m) :
    stepOf (runAgent env choose (some m) fuel) ≤ m ∧
    ∀ ms : Option Nat, stepOf (walkRun env ms) = env.walkthrough.length := by
  constructor
  · exact runLoop_step_le env choose m hm fuel env.init (initState env) false none
      (Nat.zero_le m)
  · intro ms
    have := walkLoop_step env env.walkthrough env.init (initState env) none
    simpa [walkRun, initState] using this

theorem step_budget_amended_witness :
    stepOf (runAgent doneEnv firstChoose (some 1) 5) ≤ 1 ∧
    ∀ ms : Option Nat, stepOf (walkRun doneEnv ms) = doneEnv.walkthrough.length :=
  step_budget_amended doneEnv firstChoose 1 5 (by decide)

/-- C5 counterexample: `max_steps = 0` is a configured step maximum, but the
loop guard treats it as falsy, so the episode is not stopped at 0 steps: in
an environment that only finishes after one step, the run completes with
`steps_taken = 1 > 0`. -/
theorem max_steps_zero_cex :
    isOk (runAgent doneEnv firstChoose (some 0) 5) = true ∧
    ¬ stepOf (runAgent doneEnv firstChoose (some 0) 5) ≤ 0 := by
  decide

/-- C3 (amended): the environment is closed on every normal exit of
`Agent.run` — done, step-budget exhaustion, and the mid-episode
empty-legal-action break — but when the driver raises (a terminal error
propagated from the policy, or the unbound `info` on the first-step
empty-action path), `run` has no try/finally and `close_env()` is never
reached. -/
theorem env_close_on_exit_amended {σ : Type} (env : EnvModel σ)
    (choose : Nat → List String → Except PolicyErr String)
    (ms : Option Nat) (fuel : Nat) :
    (isOk (runAgent env choose ms fuel) = true →
      closedOf (runAgent env choose ms fuel) = true) ∧
    (isErr (runAgent env choose ms fuel) = true →
      closedOf (runAgent env choose ms fuel) = false) :=
  runLoop_closedSpec env choose ms fuel env.init (initState env) false none

theorem env_close_on_exit_amended_witness :
    closedOf (runAgent doneEnv firstChoose none 5) = true :=
  (env_close_on_exit_amended doneEnv firstChoose none 5).1 (by decide)

/-- C3 counterexample: with fallback disabled the policy's terminal error
propagates out of `run()`, and on that exit path `close_env()` is not
invoked — the claim that every exit path closes the environment is false. -/
theorem policy_error_env_not_closed_cex :
    isErr (runAgent doneEnv errChoose none 5) = true ∧
    closedOf (runAgent doneEnv errChoose none 5) = false := by
  decide

/-- C10: if the legal-action set is empty already at the very first step,
the loop body never runs, the local `info` is never bound, so
`self.info = info` raises an unbound-local error and the environment is
never closed. -/
theorem empty_first_step_unbound_info {σ : Type} (env : EnvModel σ)
    (choose : Nat → List String → Except PolicyErr String)
    (ms : Option Nat) (fuel : Nat)
    (hva : env.validActions env.init = []) :
    runAgent env choose ms (fuel + 1)
      = RunOutcome.err RunError.unboundLocalInfo (initState env) false := by
  unfold runAgent
  rw [runLoop]
  have hguard : (!false && budgetOpen ms (initState env).step) = true := by
    simpa [initState] using budgetOpen_zero ms
  rw [if_pos hguard, hva]
  rfl

theorem empty_first_step_unbound_info_witness :
    runAgent emptyEnv firstChoose none 1
      = RunOutcome.err RunError.unboundLocalInfo (initState emptyEnv) false :=
  empty_first_step_unbound_info emptyEnv firstChoose none 0 rfl

/-- C9: if the legal-action set becomes empty mid-episode — at any point
where the driver's loop comes back around with the episode still running
(`done = false`) and at least one step already taken (the loop-local `info`
is bound, holding the info returned by the environment's last `step` call,
which is the only way it ever becomes bound) — the episode ends at that
step with no exception: `run` returns normally for any policy, step budget,
agent state and environment state, the stored terminal info is exactly that
last `step` call's info, and the environment is closed. -/
theorem empty_actions_mid_episode {σ : Type} (env : EnvModel σ)
    (choose : Nat → List String → Except PolicyErr String)
    (ms : Option Nat) (fuel : Nat) (es : σ) (st : AgentState) (lastInfo : String)
    (hva : env.validActions es = []) :
    runLoop env choose ms (fuel + 1) es st false (some lastInfo)
      = RunOutcome.ok st lastInfo true := by
  rw [runLoop]
  cases hb : budgetOpen ms st.step with
  | true =>
    rw [if_pos (by simp [hb]), if_pos (by simp [hva])]
    rfl
  | false =>
    rw [if_neg (by simp [hb])]
    rfl

theorem empty_actions_mid_episode_witness :
    runLoop emptiesEnv firstChoose none 3 true
      (stepUpdate (stepUpdate (initState emptiesEnv) "a" "o1" 0) "b" "o2" 1)
      false (some "i2")
      = RunOutcome.ok
          (stepUpdate (stepUpdate (initState emptiesEnv) "a" "o1" 0) "b" "o2" 1)
          "i2" true :=
  empty_actions_mid_episode emptiesEnv firstChoose none 2 true
    (stepUpdate (stepUpdate (initState emptiesEnv) "a" "o1" 0) "b" "o2" 1) "i2" rfl

/-- C4 (amended): for every reachable chat history the trim performed at
request-construction time keeps the single system turn first and never
evicts it; and for every window `w >= 1` the trimmed context has at most
`3*w + 1` turns.  `w = 0` is excluded: the Python slice `[-0:]` is the
whole list, so a zero window does not truncate at all. -/
theorem trim_bound_amended (w : Nat) (h : List Msg) (hr : HistReach w h) :
    (trimHistory w h).head? = some systemMessage ∧
    (1 ≤ w → (trimHistory w h).length ≤ 3 * w + 1) :=
  ⟨trimHistory_head w h (histReach_head hr),
   fun hw => trimHistory_length w hw h⟩

theorem trim_bound_amended_witness :
    (trimHistory 1 (initHistory "o")).head? = some systemMessage ∧
    (trimHistory 1 (initHistory "o")).length ≤ 3 * 1 + 1 :=
  ⟨(trim_bound_amended 1 (initHistory "o") (HistReach.init "o")).1,
   (trim_bound_amended 1 (initHistory "o") (HistReach.init "o")).2 (by decide)⟩

/-- C4 counterexample: with `max_chat_history_size = 0` the bound
`3*window + 1 = 1` fails already on the initial reachable history: the trim
condition fires (2 > 0) but `chat_history[1:][-0:]` keeps the whole tail,
so the trimmed context still has 2 turns. -/
theorem trim_window_zero_cex :
    HistReach 0 (initHistory "West of House") ∧
    ¬ (trimHistory 0 (initHistory "West of House")).length ≤ 3 * 0 + 1 :=
  ⟨HistReach.init "West of House", by decide⟩

/-- C8 (amended): `choose_action` never appends to the stored chat history
and never stores the ephemeral user turn — the post-call history is a
sublist of the pre-call history — and whenever the history is within the
`max_chat_history_size * 3` bound the call leaves it exactly unchanged.
(The call is not side-effect free in general: the trim at its top mutates
`self.chat_history` in place.) -/
theorem choose_action_no_append_amended (w : Nat) (fb : Bool)
    (respond : List Msg → Except ReqFail String) (rand : Nat)
    (h : List Msg) (obs : String) (valid : List String)
    (hh : h.head? = some systemMessage) :
    ((llmChooseAction w fb respond rand h obs valid).1).Sublist h ∧
    (h.length ≤ w * 3 → (llmChooseAction w fb respond rand h obs valid).1 = h) := by
  have h1 : (llmChooseAction w fb respond rand h obs valid).1 = trimHistory w h := rfl
  rw [h1]
  constructor
  · cases h with
    | nil => simp at hh
    | cons x t =>
      have hx : x = systemMessage := by simpa using hh
      subst hx
      unfold trimHistory
      split
      · exact List.Sublist.cons₂ systemMessage
          (by simpa using pyLastSlice_sublist (w * 3) t)
      · exact List.Sublist.refl _
  · intro hle
    exact trimHistory_of_le w h hle

theorem choose_action_no_append_amended_witness :
    ((llmChooseAction 1 true (fun _ => Except.error ReqFail.requestException) 0
        (initHistory "a") "o" ["look"]).1).Sublist (initHistory "a") ∧
    (llmChooseAction 1 true (fun _ => Except.error ReqFail.requestException) 0
        (initHistory "a") "o" ["look"]).1 = initHistory "a" :=
  ⟨(choose_action_no_append_amended 1 true
      (fun _ => Except.error ReqFail.requestException) 0
      (initHistory "a") "o" ["look"] rfl).1,
   (choose_action_no_append_amended 1 true
      (fun _ => Except.error ReqFail.requestException) 0
      (initHistory "a") "o" ["look"] rfl).2 (by decide)⟩

/-- C8 counterexample: a call to `choose_action` does change the stored
conversational context — with window 1 and a 5-turn reachable history the
in-place trim shrinks it to 4 turns, so "leaves the context unchanged" is
false. -/
theorem choose_action_mutates_history_cex :
    (llmChooseAction 1 true (fun _ => Except.error ReqFail.requestException) 0
        (updObservationMsg 1 "b" (updRewardMsg 0 0 (updActionMsg 0 "x" (initHistory "a"))))
        "o" ["look"]).1
      ≠ updObservationMsg 1 "b" (updRewardMsg 0 0 (updActionMsg 0 "x" (initHistory "a"))) := by
  intro hEq
  have h4 : (llmChooseAction 1 true (fun _ => Except.error ReqFail.requestException) 0
      (updObservationMsg 1 "b" (updRewardMsg 0 0 (updActionMsg 0 "x" (initHistory "a"))))
      "o" ["look"]).1.length = 4 := rfl
  have h5 : (updObservationMsg 1 "b" (updRewardMsg 0 0 (updActionMsg 0 "x"
      (initHistory "a")))).length = 5 := rfl
  rw [hEq, h5] at h4
  exact absurd h4 (by decide)

theorem llmSelect_ok_mem {fb : Bool} {valid : List String}
    {resp : Except ReqFail String} {rand : Nat} {a : String}
    (hne : valid ≠ [])
    (h : llmSelect fb valid resp rand = Except.ok a) : a ∈ valid := by
  unfold llmSelect at h
  cases resp with
  | ok raw =>
    dsimp only at h
    rcases hf : findMatchingAction valid raw with _ | a0
    · rw [hf] at h
      dsimp only at h
      cases fb with
      | true =>
        simp only [if_pos rfl] at h
        injection h with h1
        exact h1 ▸ randomChoice_mem valid rand hne
      | false => simp at h
    · rw [hf] at h
      dsimp only at h
      injection h with h1
      exact h1 ▸ findMatchingAction_mem hf
  | error e0 =>
    dsimp only at h
    cases fb with
    | true =>
      simp only [if_pos rfl] at h
      injection h with h1
      exact h1 ▸ randomChoice_mem valid rand hne
    | false => simp at h

theorem llmSelect_fb_total (valid : List String) (resp : Except ReqFail String)
    (rand : Nat) (hne : valid ≠ []) :
    ∃ a, llmSelect true valid resp rand = Except.ok a ∧ a ∈ valid := by
  unfold llmSelect
  cases resp with
  | ok raw =>
    dsimp only
    rcases hf : findMatchingAction valid raw with _ | a0
    · exact ⟨randomChoice valid rand, rfl, randomChoice_mem valid rand hne⟩
    · exact ⟨a0, rfl, findMatchingAction_mem hf⟩
  | error e0 =>
    exact ⟨randomChoice valid rand, rfl, randomChoice_mem valid rand hne⟩

theorem llmSelect_nofb_err (valid : List String) (resp : Except ReqFail String)
    (rand : Nat) :
    (∃ e, llmSelect false valid resp rand = Except.error e) ↔
      ((∃ rf, resp = Except.error rf) ∨
        (∃ raw, resp = Except.ok raw ∧ findMatchingAction valid raw = none)) := by
  unfold llmSelect
  cases resp with
  | ok raw =>
    dsimp only
    rcases hf : findMatchingAction valid raw with _ | a0
    · simp [hf]
    · simp [hf]
  | error e0 => simp

/-- C6: for every non-empty legal-action list, the model-driven selection
with fallback enabled always returns a member of that list (also when the
request failed or nothing matched, via the uniform-random draw), and with
fallback disabled it raises exactly when the request failed or no action
matched, returning a member of the list otherwise. -/
theorem llm_fallback_total (w : Nat) (fb : Bool)
    (respond : List Msg → Except ReqFail String) (rand : Nat)
    (h : List Msg) (obs : String) (valid : List String)
    (resp : Except ReqFail String)
    (hresp : respond (trimHistory w h ++ [ephemeralUserMsg obs valid]) = resp)
    (hne : valid ≠ []) :
    (∀ a, (llmChooseAction w fb respond rand h obs valid).2 = Except.ok a → a ∈ valid) ∧
    (fb = true → ∃ a, (llmChooseAction w fb respond rand h obs valid).2
        = Except.ok a ∧ a ∈ valid) ∧
    (fb = false →
      ((∃ e, (llmChooseAction w fb respond rand h obs valid).2 = Except.error e) ↔
        ((∃ rf, resp = Except.error rf) ∨
          (∃ raw, resp = Except.ok raw ∧ findMatchingAction valid raw = none)))) := by
  have hsel : (llmChooseAction w fb respond rand h obs valid).2
      = llmSelect fb valid resp rand := by
    rw [← hresp]; rfl
  refine ⟨?_, ?_, ?_⟩
  · intro a ha
    exact llmSelect_ok_mem hne (hsel.symm.trans ha)
  · intro hfb
    subst hfb
    rw [hsel]
    exact llmSelect_fb_total valid resp rand hne
  · intro hfb
    subst hfb
    rw [hsel]
    exact llmSelect_nofb_err valid resp rand

theorem llm_fallback_total_witness :
    ∃ a, (llmChooseAction 1 true (fun _ => Except.error ReqFail.requestException) 0
        (initHistory "o") "o" ["open door", "wait"]).2 = Except.ok a ∧
      a ∈ ["open door", "wait"] :=
  (llm_fallback_total 1 true (fun _ => Except.error ReqFail.requestException) 0
      (initHistory "o") "o" ["open door", "wait"]
      (Except.error ReqFail.requestException) rfl (by decide)).2.1 rfl

/-- C2: on a successful response the model-driven selection returns the
first action in the supplied list order whose text occurs in the response
body as a whole-word, case-insensitive match; any earlier-listed action
that does not occur whole-word is skipped. -/
theorem choose_action_first_whole_word (w : Nat) (fb : Bool)
    (respond : List Msg → Except ReqFail String) (rand : Nat)
    (h : List Msg) (obs : String) (pre post : List String) (a raw : String)
    (hresp : respond (trimHistory w h ++ [ephemeralUserMsg obs (pre ++ a :: post)])
        = Except.ok raw)
    (ha : wholeWordSearch a raw = true)
    (hpre : ∀ b ∈ pre, wholeWordSearch b raw = false) :
    (llmChooseAction w fb respond rand h obs (pre ++ a :: post)).2 = Except.ok a := by
  have hfind : findMatchingAction (pre ++ a :: post) raw = some a :=
    find?_first (fun b => wholeWordSearch b raw) pre post a ha hpre
  show llmSelect fb (pre ++ a :: post)
      (respond (trimHistory w h ++ [ephemeralUserMsg obs (pre ++ a :: post)])) rand
      = Except.ok a
  rw [hresp]
  unfold llmSelect
  dsimp only
  rw [hfind]

/-- The spec's own example: legal actions `["go north", "north"]` and
response body `"I will go north now"` select `"go north"`. -/
theorem choose_action_first_whole_word_witness :
    (llmChooseAction 1 true (fun _ => Except.ok "I will go north now") 0
        (initHistory "o") "o" ["go north", "north"]).2 = Except.ok "go north" :=
  choose_action_first_whole_word 1 true (fun _ => Except.ok "I will go north now") 0
    (initHistory "o") "o" [] ["north"] "go north" "I will go north now" rfl
    (by decide) (fun b hb => absurd hb (List.not_mem_nil b))
